import Mathlib

/-!
Shallow embedding of `core/src/tokenization.rs` from the
`text-embeddings-inference` repository: the tokenization dispatch and
validation layer (prompt resolution, character/token length guards,
truncation, encode/tokenize/decode pipelines, offset projection).

Rust `String` values are modelled as lists of unicode scalar values
(`List Char`); byte-level operations (`is_char_boundary`, `truncate`)
are modelled through the UTF-8 byte length of each scalar value.
Machine integers are modelled as `Nat`, with an explicit `% 2 ^ 32`
where the source casts `usize` to `u32`.
-/

set_option maxRecDepth 40000

namespace Tokenization

/-- Rust `String` / `&str`: a list of unicode scalar values. -/
abbrev RStr := List Char

/-- Number of bytes in the UTF-8 encoding of one unicode scalar value
(matches Rust `char::len_utf8`). -/
def charUtf8Len (c : Char) : Nat :=
  if c.toNat < 0x80 then 1
  else if c.toNat < 0x800 then 2
  else if c.toNat < 0x10000 then 3
  else 4

/-- UTF-8 byte length of a string (Rust `String::len`). -/
def byteLen (s : RStr) : Nat :=
  (s.map charUtf8Len).sum

/-- Rust `String::is_char_boundary(i)`: `i` is `0`, or the byte index `i`
is the exact end of a whole-character prefix of `s`. -/
def is_char_boundary : RStr → Nat → Bool
  | _, 0 => true
  | [], _ + 1 => false
  | c :: rest, i + 1 =>
    if charUtf8Len c ≤ i + 1 then is_char_boundary rest (i + 1 - charUtf8Len c)
    else false

/-- Rust `String::truncate(i)` at a character boundary `i`: keep the maximal
whole-character prefix whose UTF-8 byte length is at most `i`. -/
def truncateBytes : RStr → Nat → RStr
  | _, 0 => []
  | [], _ + 1 => []
  | c :: rest, i + 1 =>
    if charUtf8Len c ≤ i + 1 then c :: truncateBytes rest (i + 1 - charUtf8Len c)
    else []

/-- The closure `truncate_string` from `EncodingInput::apply_limit`:
truncate `s` to `limit` bytes, but only when byte index `limit` is a
character boundary of `s`; otherwise leave `s` unchanged. -/
def truncate_string (s : RStr) (limit : Nat) : RStr :=
  if is_char_boundary s limit then truncateBytes s limit else s

/-- The enum `EncodingInput`. -/
inductive EncodingInput where
  | Single (s : RStr)
  | Dual (s1 s2 : RStr)
  | Ids (ids : List Nat)
deriving DecidableEq, Repr

namespace EncodingInput

/-- Method `EncodingInput::is_empty`. -/
def is_empty : EncodingInput → Bool
  | .Single s => s.isEmpty
  | .Dual s1 s2 => s1.isEmpty && s2.isEmpty
  | .Ids v => v.isEmpty

/-- Method `EncodingInput::count_chars`. -/
def count_chars : EncodingInput → Nat
  | .Single s => s.length
  | .Dual s1 s2 => s1.length + s2.length
  | .Ids v => v.length

/-- Method `EncodingInput::apply_limit`. -/
def apply_limit : EncodingInput → Nat → EncodingInput
  | .Single s, limit => .Single (truncate_string s limit)
  | .Dual s1 s2, limit => .Dual (truncate_string s1 (limit / 2)) (truncate_string s2 (limit / 2))
  | .Ids v, _ => .Ids v

end EncodingInput

/-- The constant `MAX_CHAR_MULTIPLIER`. -/
def MAX_CHAR_MULTIPLIER : Nat := 250

/-- Modelled from the spec: the error type `TextEmbeddingsError` lives in the
crate root, outside this file's source; the `Validation` payloads are modelled
structurally, one constructor per distinct `format!` message produced in
`tokenization.rs`, carrying exactly the data interpolated into that message. -/
inductive ValidationError where
  /-- message: inputs cannot be empty -/
  | inputsEmpty
  /-- message: input ids cannot be empty -/
  | inputIdsEmpty
  /-- message: default-prompt-name is set to the given name but no prompts
  were found in the Sentence Transformers configuration -/
  | promptsNotFound (promptName : RStr)
  /-- message: default-prompt-name is set to the given name but it was not
  found in the Sentence Transformers prompts; lists the available names -/
  | promptMissing (promptName : RStr) (available : List RStr)
  /-- message: inputs must have less than the given limit of characters;
  carries the limit and the actual character count -/
  | charLimitExceeded (limit : Nat) (given : Nat)
  /-- message: inputs must have less than the given number of tokens;
  carries the limit and the actual token count -/
  | tokenLimitExceeded (limit : Nat) (given : Nat)
  /-- message: prompt name cannot be set with dual inputs -/
  | promptWithDualInput
deriving DecidableEq, Repr

/-- Modelled from the spec: `TextEmbeddingsError` (crate root, outside the
source file). `Validation` covers user-recoverable validation failures;
`Tokenizer` wraps any failure surfaced by the external tokenization
capability, passed through unchanged. -/
inductive TextEmbeddingsError where
  | Validation (e : ValidationError)
  | Tokenizer (e : RStr)
deriving DecidableEq, Repr

/-- The enum `tokenizers::TruncationDirection`. -/
inductive TruncationDirection where
  | Left
  | Right
deriving DecidableEq, Repr

/-- The enum `tokenizers::TruncationStrategy`. -/
inductive TruncationStrategy where
  | LongestFirst
  | OnlyFirst
  | OnlySecond
deriving DecidableEq, Repr

/-- The struct `tokenizers::TruncationParams`. -/
structure TruncationParams where
  direction : TruncationDirection
  max_length : Nat
  strategy : TruncationStrategy
  stride : Nat
deriving DecidableEq, Repr

/-- The struct `tokenizers::Encoding` (re-exported as `RawEncoding`):
ids, type ids, token texts, byte offsets and the special-token mask,
one entry per token position. -/
structure RawEncoding where
  ids : List Nat
  type_ids : List Nat
  tokens : List RStr
  offsets : List (Nat × Nat)
  special_tokens_mask : List Nat
deriving DecidableEq, Repr

/-- Method `Encoding::len`: the number of token positions (`ids.len()`). -/
def RawEncoding.len (e : RawEncoding) : Nat :=
  e.ids.length

/-- Modelled from the spec: the external Tokenizer capability
(`tokenizers::Tokenizer`), specified only at its interface boundary.
`withTruncation p` models the fallible configuration step
`with_truncation(p)?`; `encodeSingle p s add` and `encodePair p s1 s2 add`
model `with_truncation(p)?.encode(…, add)?` under the configured truncation
`p`; `decode ids skip` models `decode(&ids, skip)?`. A `.error` result is the
external capability failing; it is wrapped as `TextEmbeddingsError.Tokenizer`
by the caller. -/
structure Tokenizer where
  withTruncation : Option TruncationParams → Except RStr Unit
  encodeSingle : Option TruncationParams → RStr → Bool → Except RStr RawEncoding
  encodePair : Option TruncationParams → RStr → RStr → Bool → Except RStr RawEncoding
  decode : List Nat → Bool → Except RStr RStr

/-- Lift an external tokenizer failure into `TextEmbeddingsError.Tokenizer`
(the `From` conversion applied by the `?` operator in the source). -/
def liftTok {α : Type} (x : Except RStr α) : Except TextEmbeddingsError α :=
  x.mapError TextEmbeddingsError.Tokenizer

/-- The prompt table `HashMap<String, String>`, modelled as an association
list; `lookup` models `get`/`contains_key` and `map Prod.fst` models `keys`. -/
abbrev PromptMap := List (RStr × RStr)

/-- Function `prepare_pre_prompt`. -/
def prepare_pre_prompt (default_prompt : Option RStr) (prompt_name : Option RStr)
    (prompts : Option PromptMap) : Except TextEmbeddingsError (Option RStr) :=
  match prompt_name with
  | some name =>
    match prompts with
    | none => .error (.Validation (.promptsNotFound name))
    | some table =>
      if (table.lookup name).isNone then
        .error (.Validation (.promptMissing name (table.map Prod.fst)))
      else
        .ok (table.lookup name)
  | none => .ok default_prompt

/-- The body `let encoding = match inputs { … }` of `tokenize_input`:
dispatch on the (possibly truncated) input form, prepending the resolved
prompt where applicable, and call the tokenizer. Each fallible tokenizer
call is an explicit match, mirroring the `?` operator of the source. -/
def tokenize_dispatch (inputs : EncodingInput) (pre_prompt : Option RStr)
    (add_special_tokens : Bool) (truncate_params : Option TruncationParams)
    (tokenizer : Tokenizer) :
    Except TextEmbeddingsError (Option RStr × RawEncoding) :=
  match inputs with
  | .Single s =>
    let s :=
      match pre_prompt with
      | some pp => pp ++ s
      | none => s
    match liftTok (tokenizer.withTruncation truncate_params) with
    | .error e => .error e
    | .ok _ =>
      match liftTok (tokenizer.encodeSingle truncate_params s add_special_tokens) with
      | .error e => .error e
      | .ok encoding => .ok (some s, encoding)
  | .Dual s1 s2 =>
    if pre_prompt.isSome then
      .error (.Validation .promptWithDualInput)
    else
      match liftTok (tokenizer.withTruncation truncate_params) with
      | .error e => .error e
      | .ok _ =>
        match liftTok (tokenizer.encodePair truncate_params s1 s2 add_special_tokens) with
        | .error e => .error e
        | .ok encoding => .ok (none, encoding)
  | .Ids ids =>
    match pre_prompt with
    | some pp =>
      match liftTok (tokenizer.decode ids true) with
      | .error e => .error e
      | .ok text =>
        let resolved := pp ++ text
        match liftTok (tokenizer.withTruncation truncate_params) with
        | .error e => .error e
        | .ok _ =>
          match liftTok (tokenizer.encodeSingle truncate_params resolved true) with
          | .error e => .error e
          | .ok encoding => .ok (some resolved, encoding)
    | none =>
      match liftTok (tokenizer.decode ids false) with
      | .error e => .error e
      | .ok text =>
        match liftTok (tokenizer.withTruncation truncate_params) with
        | .error e => .error e
        | .ok _ =>
          match liftTok (tokenizer.encodeSingle truncate_params text false) with
          | .error e => .error e
          | .ok encoding => .ok (some text, encoding)

/-- Function `tokenize_input`: resolve the prompt, enforce the character
limit (truncating when permitted), then dispatch via `tokenize_dispatch`,
returning the resolved text (when any) together with the raw encoding. -/
def tokenize_input (inputs : EncodingInput) (add_special_tokens : Bool)
    (max_input_length : Nat) (truncate_params : Option TruncationParams)
    (default_prompt : Option RStr) (prompt_name : Option RStr)
    (prompts : Option PromptMap) (tokenizer : Tokenizer) :
    Except TextEmbeddingsError (Option RStr × RawEncoding) :=
  match prepare_pre_prompt default_prompt prompt_name prompts with
  | .error e => .error e
  | .ok pre_prompt =>
    let input_chars := inputs.count_chars
    let limit := max_input_length * MAX_CHAR_MULTIPLIER
    if input_chars > limit then
      if truncate_params.isNone then
        .error (.Validation (.charLimitExceeded limit input_chars))
      else
        tokenize_dispatch (inputs.apply_limit limit) pre_prompt
          add_special_tokens truncate_params tokenizer
    else
      tokenize_dispatch inputs pre_prompt add_special_tokens truncate_params
        tokenizer

/-- The struct `ValidEncoding`. -/
structure ValidEncoding where
  input_ids : List Nat
  token_type_ids : List Nat
  position_ids : List Nat
deriving DecidableEq, Repr

/-- Rust `a as u32 .. b as u32` for `a b : usize`, collected into a list:
the iteration starts at `a % 2 ^ 32`, stops before `b % 2 ^ 32`, and is
empty when the truncated end does not exceed the truncated start. -/
def u32Range (a b : Nat) : List Nat :=
  List.range' (a % 2 ^ 32) (b % 2 ^ 32 - a % 2 ^ 32)

/-- The truncation parameters built by `encode_input` from `truncate` and
`truncation_direction`. -/
def encodeTruncParams (truncate : Bool) (truncation_direction : TruncationDirection)
    (max_input_length : Nat) : Option TruncationParams :=
  if truncate then
    some { direction := truncation_direction, max_length := max_input_length,
           strategy := .LongestFirst, stride := 0 }
  else
    none

/-- Function `encode_input`: tokenize with the encode-path truncation
parameters and `add_special_tokens = true`, enforce the token-count
post-condition, and build the `ValidEncoding` (the metrics histogram
recording has no effect on the result and is omitted). -/
def encode_input (inputs : EncodingInput) (truncate : Bool)
    (truncation_direction : TruncationDirection) (max_input_length : Nat)
    (position_offset : Nat) (default_prompt : Option RStr)
    (prompt_name : Option RStr) (prompts : Option PromptMap)
    (tokenizer : Tokenizer) : Except TextEmbeddingsError ValidEncoding :=
  match tokenize_input inputs true max_input_length
    (encodeTruncParams truncate truncation_direction max_input_length)
    default_prompt prompt_name prompts tokenizer with
  | .error e => .error e
  | .ok (_, encoding) =>
    let seq_len := encoding.len
    if seq_len > max_input_length then
      .error (.Validation (.tokenLimitExceeded max_input_length seq_len))
    else
      .ok
        { input_ids := encoding.ids
          token_type_ids := encoding.type_ids
          position_ids := u32Range position_offset (seq_len + position_offset) }

/-- Function `decode_ids`. -/
def decode_ids (ids : List Nat) (skip_special_tokens : Bool)
    (tokenizer : Tokenizer) : Except TextEmbeddingsError RStr :=
  match liftTok (tokenizer.withTruncation none) with
  | .error e => .error e
  | .ok _ => liftTok (tokenizer.decode ids skip_special_tokens)

/-- The worker-side nulling of the default prompt: `tokenizer_worker` passes
`None` as the default prompt whenever an explicit `prompt_name` accompanies
the request. -/
def defaultPromptClone (prompt_name : Option RStr) (default_prompt : Option RStr) :
    Option RStr :=
  match prompt_name with
  | none => default_prompt
  | some _ => none

/-- The configuration held by the worker pool: arguments of
`Tokenization::new` that every worker receives. -/
structure Config where
  max_input_length : Nat
  position_offset : Nat
  default_prompt : Option RStr
  prompts : Option PromptMap

/-- Method `Tokenization::encode`, composed with the worker that serves the
request: the façade rejects empty inputs before enqueueing; otherwise it
enqueues the request and the worker computes `encode_input` (with the
default prompt nulled when a prompt name is given) and replies with the
result. The boolean records whether the request was sent to the worker
queue. -/
def encode (cfg : Config) (tokenizer : Tokenizer)
    (inputs : EncodingInput) (truncate : Bool)
    (truncation_direction : TruncationDirection) (prompt_name : Option RStr) :
    Except TextEmbeddingsError ValidEncoding × Bool :=
  if inputs.is_empty then
    (.error (.Validation .inputsEmpty), false)
  else
    (encode_input inputs truncate truncation_direction cfg.max_input_length
      cfg.position_offset (defaultPromptClone prompt_name cfg.default_prompt)
      prompt_name cfg.prompts tokenizer, true)

/-- Method `Tokenization::tokenize`, composed with the worker that serves
the request: the façade rejects empty inputs before enqueueing; otherwise
the worker computes `tokenize_input` with no truncation parameters (and the
default prompt nulled when a prompt name is given). The boolean records
whether the request was sent to the worker queue. -/
def tokenize (cfg : Config) (tokenizer : Tokenizer)
    (inputs : EncodingInput) (add_special_tokens : Bool)
    (prompt_name : Option RStr) :
    Except TextEmbeddingsError (Option RStr × RawEncoding) × Bool :=
  if inputs.is_empty then
    (.error (.Validation .inputsEmpty), false)
  else
    (tokenize_input inputs add_special_tokens cfg.max_input_length none
      (defaultPromptClone prompt_name cfg.default_prompt) prompt_name
      cfg.prompts tokenizer, true)

/-- Method `Tokenization::decode`, composed with the worker that serves the
request: the façade rejects an empty id list before enqueueing; otherwise
the worker computes `decode_ids` and replies with the result. The boolean
records whether the request was sent to the worker queue. -/
def decode (_cfg : Config) (tokenizer : Tokenizer)
    (ids : List Nat) (skip_special_tokens : Bool) :
    Except TextEmbeddingsError RStr × Bool :=
  if ids.isEmpty then
    (.error (.Validation .inputIdsEmpty), false)
  else
    (decode_ids ids skip_special_tokens tokenizer, true)

end Tokenization

namespace Tokenization

theorem one_le_charUtf8Len (c : Char) : 1 ≤ charUtf8Len c := by
  unfold charUtf8Len
  split_ifs <;> omega

theorem byteLen_nil : byteLen [] = 0 := rfl

theorem byteLen_cons (c : Char) (s : RStr) :
    byteLen (c :: s) = charUtf8Len c + byteLen s := by
  simp [byteLen]

theorem length_le_byteLen (s : RStr) : s.length ≤ byteLen s := by
  induction s with
  | nil => simp [byteLen]
  | cons c rest ih =>
    rw [byteLen_cons]
    have := one_le_charUtf8Len c
    simp only [List.length_cons]
    omega

theorem truncateBytes_isPre (s : RStr) (limit : Nat) :
    truncateBytes s limit <+: s := by
  induction s generalizing limit with
  | nil => cases limit <;> simp [truncateBytes]
  | cons c rest ih =>
    cases limit with
    | zero => simp [truncateBytes]
    | succ i =>
      unfold truncateBytes
      split
      · exact List.cons_prefix_cons.mpr ⟨rfl, ih _⟩
      · simp

theorem byteLen_truncateBytes (s : RStr) (limit : Nat)
    (h : is_char_boundary s limit = true) :
    byteLen (truncateBytes s limit) = limit := by
  induction s generalizing limit with
  | nil =>
    cases limit with
    | zero => rfl
    | succ i => simp [is_char_boundary] at h
  | cons c rest ih =>
    cases limit with
    | zero => rfl
    | succ i =>
      unfold is_char_boundary at h
      unfold truncateBytes
      by_cases hc : charUtf8Len c ≤ i + 1
      · rw [if_pos hc] at h ⊢
        rw [byteLen_cons, ih _ h]
        omega
      · rw [if_neg hc] at h
        exact absurd h (by simp)

end Tokenization

namespace Tokenization

/-- C1 (counterexample): with `max_input_length = 1` the character limit is
`1 * 250 = 250`; the single input of 251 copies of the three-byte character
U+4E2A exceeds the limit, yet `apply_limit 250` leaves it completely
unchanged — byte index 250 falls inside a multi-byte character, so
`truncate_string` does nothing and the character count stays above the
limit, contradicting the claim that the truncated input's character count
is within the limit. -/
theorem C1_counterexample :
    (EncodingInput.Single (List.replicate 251 '个')).count_chars > 1 * 250 ∧
    (EncodingInput.Single (List.replicate 251 '个')).apply_limit (1 * 250)
      = .Single (List.replicate 251 '个') ∧
    ¬ ((EncodingInput.Single (List.replicate 251 '个')).apply_limit
        (1 * 250)).count_chars ≤ 1 * 250 := by
  decide

/-- C1 (amended): `apply_limit` truncates each string at the byte index given
by its share of the limit (the full limit for a single input, half each for
dual inputs) only when that byte index is a valid character boundary; in that
case the result is a whole-character prefix of exactly `limit` bytes, hence
its character count is within the limit and no multi-byte character is ever
split. When the byte index falls inside a multi-byte character the string is
left unchanged (and its character count may remain above the limit). -/
theorem C1_apply_limit_boundary_truncation (s : RStr) (limit : Nat) :
    (is_char_boundary s limit = true →
      truncate_string s limit <+: s ∧
      byteLen (truncate_string s limit) = limit ∧
      (truncate_string s limit).length ≤ limit) ∧
    (is_char_boundary s limit = false → truncate_string s limit = s) ∧
    (EncodingInput.Single s).apply_limit limit
      = .Single (truncate_string s limit) ∧
    (∀ s2, (EncodingInput.Dual s s2).apply_limit limit
      = .Dual (truncate_string s (limit / 2)) (truncate_string s2 (limit / 2))) := by
  refine ⟨?_, ?_, rfl, fun s2 => rfl⟩
  · intro h
    have he : truncate_string s limit = truncateBytes s limit := by
      simp [truncate_string, h]
    rw [he]
    refine ⟨truncateBytes_isPre s limit, byteLen_truncateBytes s limit h, ?_⟩
    calc (truncateBytes s limit).length ≤ byteLen (truncateBytes s limit) :=
          length_le_byteLen _
      _ = limit := byteLen_truncateBytes s limit h
  · intro h
    simp [truncate_string, h]

/-- C1 (witness): the amended theorem applied to the concrete string
"héllo" (whose bytes are h=1, é=2, l=1, l=1, o=1) with limit 3, a valid
character boundary: truncation keeps "hé", a whole-character prefix of byte length 3 and of length 2 ≤ 3. -/
theorem C1_apply_limit_boundary_truncation_witness :
    is_char_boundary "héllo".data 3 = true ∧
    truncate_string "héllo".data 3 <+: "héllo".data ∧
    byteLen (truncate_string "héllo".data 3) = 3 ∧
    (truncate_string "héllo".data 3).length ≤ 3 := by
  refine ⟨by decide, ?_⟩
  have h := (C1_apply_limit_boundary_truncation "héllo".data 3).1 (by decide)
  exact h

end Tokenization

namespace Tokenization

/-- A concrete tokenizer used by the witnesses: truncation configuration
always succeeds, every encode call returns the fixed encoding `e`, and
decoding returns the fixed text `t`. -/
def constTokenizer (e : RawEncoding) (t : RStr) : Tokenizer where
  withTruncation := fun _ => .ok ()
  encodeSingle := fun _ _ _ => .ok e
  encodePair := fun _ _ _ _ => .ok e
  decode := fun _ _ => .ok t

/-- An encoding with `n` token positions, used by the witnesses. -/
def mkEncoding (n : Nat) : RawEncoding where
  ids := List.range n
  type_ids := List.replicate n 0
  tokens := List.replicate n []
  offsets := List.replicate n (0, 0)
  special_tokens_mask := List.replicate n 0

theorem is_empty_eq_false_of_count_chars_pos (inputs : EncodingInput)
    (h : 0 < inputs.count_chars) : inputs.is_empty = false := by
  cases inputs with
  | Single s =>
    simp only [EncodingInput.count_chars] at h
    simp [EncodingInput.is_empty, List.isEmpty_iff, List.length_pos.mp h]
  | Dual s1 s2 =>
    simp only [EncodingInput.count_chars] at h
    simp only [EncodingInput.is_empty, Bool.and_eq_false_iff]
    rcases Nat.lt_or_ge 0 s1.length with h1 | h1
    · exact Or.inl (by simp [List.isEmpty_iff, List.length_pos.mp h1])
    · have h2 : 0 < s2.length := by omega
      exact Or.inr (by simp [List.isEmpty_iff, List.length_pos.mp h2])
  | Ids v =>
    simp only [EncodingInput.count_chars] at h
    simp [EncodingInput.is_empty, List.isEmpty_iff, List.length_pos.mp h]

/-- C7: for every empty input — a `Single` or `Dual` input is empty iff all
of its strings are empty, an `Ids` input iff its id sequence is empty —
`encode`, `tokenize` and `decode` fail immediately with the corresponding
Validation error, and the request is never sent to the worker queue (the
boolean component is `false`). -/
theorem C7_empty_input_rejected (cfg : Config) (tokenizer : Tokenizer)
    (inputs : EncodingInput) (truncate : Bool) (dir : TruncationDirection)
    (add_special_tokens : Bool) (prompt_name : Option RStr)
    (skip_special_tokens : Bool) (h : inputs.is_empty = true) :
    encode cfg tokenizer inputs truncate dir prompt_name
      = (.error (.Validation .inputsEmpty), false) ∧
    tokenize cfg tokenizer inputs add_special_tokens prompt_name
      = (.error (.Validation .inputsEmpty), false) ∧
    decode cfg tokenizer [] skip_special_tokens
      = (.error (.Validation .inputIdsEmpty), false) ∧
    (∀ s, (EncodingInput.Single s).is_empty = s.isEmpty) ∧
    (∀ s1 s2, (EncodingInput.Dual s1 s2).is_empty = (s1.isEmpty && s2.isEmpty)) ∧
    (∀ v, (EncodingInput.Ids v).is_empty = v.isEmpty) := by
  refine ⟨?_, ?_, rfl, fun s => rfl, fun s1 s2 => rfl, fun v => rfl⟩ <;>
    simp [encode, tokenize, h]

/-- C7 (witness): the empty `Dual` input at a concrete configuration. -/
theorem C7_empty_input_rejected_witness :
    encode ⟨8, 0, none, none⟩ (constTokenizer (mkEncoding 2) [])
        (EncodingInput.Dual [] []) false .Right none
      = (.error (.Validation .inputsEmpty), false) ∧
    tokenize ⟨8, 0, none, none⟩ (constTokenizer (mkEncoding 2) [])
        (EncodingInput.Dual [] []) true none
      = (.error (.Validation .inputsEmpty), false) := by
  have h := C7_empty_input_rejected ⟨8, 0, none, none⟩
    (constTokenizer (mkEncoding 2) []) (EncodingInput.Dual [] [])
    false .Right true none true (by decide)
  exact ⟨h.1, h.2.1⟩

end Tokenization

namespace Tokenization

/-- C6: prompt resolution. With no `prompt_name` the default prompt is
returned unchanged; with a `prompt_name` and no prompt table the resolution
fails with a Validation error naming the missing prompt; with a table that
lacks the name it fails with a Validation error naming the prompt and the
available names; with a table containing the name the named prompt is
returned and the default prompt is ignored (the result is independent of
it). Concrete scenario: `prompt_name = query` with table mapping `query` to
the text `Represent this: ` and input `Single hello` resolves to the text
`Represent this: hello`, which is exactly what the tokenizer encodes. -/
theorem C6_prompt_resolution :
    (∀ dp prompts, prepare_pre_prompt dp none prompts = .ok dp) ∧
    (∀ dp name, prepare_pre_prompt dp (some name) none
      = .error (.Validation (.promptsNotFound name))) ∧
    (∀ dp name (table : PromptMap), table.lookup name = none →
      prepare_pre_prompt dp (some name) (some table)
        = .error (.Validation (.promptMissing name (table.map Prod.fst)))) ∧
    (∀ dp dp2 name (table : PromptMap) v, table.lookup name = some v →
      prepare_pre_prompt dp (some name) (some table) = .ok (some v) ∧
      prepare_pre_prompt dp (some name) (some table)
        = prepare_pre_prompt dp2 (some name) (some table)) ∧
    (∀ (po : Nat) (dp : Option RStr) (tokenizer : Tokenizer) (add : Bool)
        (e : RawEncoding),
      tokenizer.withTruncation none = .ok () →
      tokenizer.encodeSingle none "Represent this: hello".data add = .ok e →
      tokenize ⟨8, po, dp, some [("query".data, "Represent this: ".data)]⟩
          tokenizer (.Single "hello".data) add (some "query".data)
        = (.ok (some "Represent this: hello".data, e), true)) := by
  refine ⟨fun dp prompts => rfl, fun dp name => rfl, ?_, ?_, ?_⟩
  · intro dp name table h
    simp [prepare_pre_prompt, h]
  · intro dp dp2 name table v h
    constructor <;> simp [prepare_pre_prompt, h]
  · intro po dp tokenizer add e h3 h4
    have hs : "Represent this: ".data ++ "hello".data
        = "Represent this: hello".data := by decide
    simp only [tokenize]
    rw [if_neg (by decide)]
    have hprep : prepare_pre_prompt
        (defaultPromptClone (some "query".data) dp) (some "query".data)
        (some [("query".data, "Represent this: ".data)])
        = .ok (some "Represent this: ".data) := by
      show prepare_pre_prompt none (some "query".data)
        (some [("query".data, "Represent this: ".data)])
        = .ok (some "Represent this: ".data)
      rfl
    simp only [tokenize_input, hprep]
    rw [if_neg (by decide)]
    simp only [tokenize_dispatch, hs, liftTok, h3, h4, Except.mapError]

end Tokenization

namespace Tokenization

/-- C6 (witness): the concrete scenario of the claim, at a configured
default prompt (ignored) and the constant tokenizer. -/
theorem C6_prompt_resolution_witness :
    prepare_pre_prompt (some "ignored".data) (some "query".data)
        (some [("query".data, "Represent this: ".data)])
      = .ok (some "Represent this: ".data) ∧
    tokenize ⟨8, 0, none, some [("query".data, "Represent this: ".data)]⟩
        (constTokenizer (mkEncoding 2) []) (.Single "hello".data) true
        (some "query".data)
      = (.ok (some "Represent this: hello".data, mkEncoding 2), true) := by
  constructor
  · exact (C6_prompt_resolution.2.2.2.1 (some "ignored".data) none "query".data
      [("query".data, "Represent this: ".data)] "Represent this: ".data rfl).1
  · exact C6_prompt_resolution.2.2.2.2 0 none (constTokenizer (mkEncoding 2) [])
      true (mkEncoding 2) rfl rfl

/-- C5: for every input whose character count (summed across both strings of
a dual input, each id counting as one unit for ids-form input) exceeds
`max_input_length * 250` while truncation is not permitted (`truncate =
false` on the encode path; the tokenize path never passes truncation
parameters), both `encode` and `tokenize` fail with a Validation error
carrying the exact limit and the exact count, provided prompt resolution
succeeds; and ids-form input is never character-truncated: `apply_limit` is
the identity on `Ids`. -/
theorem C5_char_limit_exceeded (cfg : Config) (tokenizer : Tokenizer)
    (inputs : EncodingInput) (dir : TruncationDirection) (add : Bool)
    (prompt_name : Option RStr) (pp : Option RStr)
    (hcount : inputs.count_chars > cfg.max_input_length * MAX_CHAR_MULTIPLIER)
    (hprep : prepare_pre_prompt (defaultPromptClone prompt_name cfg.default_prompt)
      prompt_name cfg.prompts = .ok pp) :
    encode cfg tokenizer inputs false dir prompt_name
      = (.error (.Validation (.charLimitExceeded
          (cfg.max_input_length * MAX_CHAR_MULTIPLIER) inputs.count_chars)), true) ∧
    tokenize cfg tokenizer inputs add prompt_name
      = (.error (.Validation (.charLimitExceeded
          (cfg.max_input_length * MAX_CHAR_MULTIPLIER) inputs.count_chars)), true) ∧
    (∀ v limit, (EncodingInput.Ids v).apply_limit limit = .Ids v) := by
  have hne : inputs.is_empty = false :=
    is_empty_eq_false_of_count_chars_pos inputs (by omega)
  refine ⟨?_, ?_, fun v limit => rfl⟩
  · simp only [encode, hne, Bool.false_eq_true, if_false, encode_input,
      tokenize_input, hprep, encodeTruncParams, if_neg (Bool.false_ne_true ∘ id)]
    rw [if_pos hcount]
    simp
  · simp only [tokenize, hne, Bool.false_eq_true, if_false, tokenize_input, hprep]
    rw [if_pos hcount]
    simp

end Tokenization

namespace Tokenization

/-- C5 (witness): 251 characters against a limit of `1 * 250 = 250`,
truncation not permitted, for both `encode` and `tokenize`. -/
theorem C5_char_limit_exceeded_witness :
    (EncodingInput.Single (List.replicate 251 'a')).count_chars > 1 * 250 ∧
    encode ⟨1, 0, none, none⟩ (constTokenizer (mkEncoding 2) [])
        (.Single (List.replicate 251 'a')) false .Right none
      = (.error (.Validation (.charLimitExceeded 250 251)), true) ∧
    tokenize ⟨1, 0, none, none⟩ (constTokenizer (mkEncoding 2) [])
        (.Single (List.replicate 251 'a')) true none
      = (.error (.Validation (.charLimitExceeded 250 251)), true) := by
  have h := C5_char_limit_exceeded ⟨1, 0, none, none⟩
    (constTokenizer (mkEncoding 2) []) (.Single (List.replicate 251 'a'))
    .Right true none none (by decide) rfl
  exact ⟨by decide, h.1, h.2.1⟩

end Tokenization

namespace Tokenization

/-- C2 (counterexample): the concrete scenario of the claim —
`prompt_name = query` with `Dual(a, b)` — does fail with the
PromptWithDualInput Validation error, but the request IS sent to the worker
queue (the boolean component is `true`): the dual-input check runs inside
the worker after dequeue, and only the empty-input check precedes
enqueueing, so the claim's "never enqueued to a worker" is false. -/
theorem C2_counterexample :
    encode ⟨8, 0, none, some [("query".data, "Represent this: ".data)]⟩
        (constTokenizer (mkEncoding 2) []) (.Dual "a".data "b".data) false
        .Right (some "query".data)
      = (.error (.Validation .promptWithDualInput), true) ∧
    tokenize ⟨8, 0, none, some [("query".data, "Represent this: ".data)]⟩
        (constTokenizer (mkEncoding 2) []) (.Dual "a".data "b".data) true
        (some "query".data)
      = (.error (.Validation .promptWithDualInput), true) := by
  constructor <;> rfl

/-- C2 (amended): for every non-empty dual-pair input within the character
limit for which a prompt resolves (a named prompt or the default), `encode`
and `tokenize` fail with the PromptWithDualInput Validation error; the
request is enqueued to the worker queue (only the empty-input check precedes
enqueueing) and the error is computed by the worker and returned through the
reply channel. -/
theorem C2_prompt_with_dual_input (cfg : Config) (tokenizer : Tokenizer)
    (s1 s2 : RStr) (truncate : Bool) (dir : TruncationDirection) (add : Bool)
    (prompt_name : Option RStr) (p : RStr)
    (hne : ¬(s1 = [] ∧ s2 = []))
    (hcount : s1.length + s2.length ≤ cfg.max_input_length * MAX_CHAR_MULTIPLIER)
    (hprep : prepare_pre_prompt (defaultPromptClone prompt_name cfg.default_prompt)
      prompt_name cfg.prompts = .ok (some p)) :
    encode cfg tokenizer (.Dual s1 s2) truncate dir prompt_name
      = (.error (.Validation .promptWithDualInput), true) ∧
    tokenize cfg tokenizer (.Dual s1 s2) add prompt_name
      = (.error (.Validation .promptWithDualInput), true) := by
  have hie : (EncodingInput.Dual s1 s2).is_empty = false := by
    cases s1 with
    | cons a t => rfl
    | nil =>
      cases s2 with
      | nil => exact absurd ⟨rfl, rfl⟩ hne
      | cons b t => rfl
  have hc : ¬ ((EncodingInput.Dual s1 s2).count_chars
      > cfg.max_input_length * MAX_CHAR_MULTIPLIER) := by
    simp only [EncodingInput.count_chars]
    omega
  constructor
  · simp only [encode, hie, Bool.false_eq_true, if_false, encode_input,
      tokenize_input, hprep, if_neg hc]
    simp [tokenize_dispatch]
  · simp only [tokenize, hie, Bool.false_eq_true, if_false,
      tokenize_input, hprep, if_neg hc]
    simp [tokenize_dispatch]

/-- C2 (witness): the amended theorem at the concrete scenario of the
claim, with a resolved named prompt. -/
theorem C2_prompt_with_dual_input_witness :
    ¬("a".data = [] ∧ "b".data = []) ∧
    tokenize ⟨8, 0, some "default".data, some [("query".data, "Represent this: ".data)]⟩
        (constTokenizer (mkEncoding 2) []) (.Dual "a".data "b".data) true
        (some "query".data)
      = (.error (.Validation .promptWithDualInput), true) := by
  have h := C2_prompt_with_dual_input
    ⟨8, 0, some "default".data, some [("query".data, "Represent this: ".data)]⟩
    (constTokenizer (mkEncoding 2) []) "a".data "b".data false .Right true
    (some "query".data) "Represent this: ".data (by decide) (by decide) rfl
  exact ⟨by decide, h.2⟩

end Tokenization

namespace Tokenization

/-- C3: on the encode path, after tokenization succeeds, an encoding whose
token count exceeds `max_input_length` makes the call fail with a Validation
error carrying the limit and the actual token count; the tokenize path
applies no such post-check and returns the over-long encoding unchanged. -/
theorem C3_token_limit_post_check (cfg : Config) (tokenizer : Tokenizer)
    (inputs : EncodingInput) (truncate : Bool) (dir : TruncationDirection)
    (add : Bool) (prompt_name : Option RStr) (t : Option RStr)
    (enc : RawEncoding) (hne : inputs.is_empty = false)
    (hlen : enc.len > cfg.max_input_length) :
    (tokenize_input inputs true cfg.max_input_length
        (encodeTruncParams truncate dir cfg.max_input_length)
        (defaultPromptClone prompt_name cfg.default_prompt) prompt_name
        cfg.prompts tokenizer = .ok (t, enc) →
      encode cfg tokenizer inputs truncate dir prompt_name
        = (.error (.Validation
            (.tokenLimitExceeded cfg.max_input_length enc.len)), true)) ∧
    (tokenize_input inputs add cfg.max_input_length none
        (defaultPromptClone prompt_name cfg.default_prompt) prompt_name
        cfg.prompts tokenizer = .ok (t, enc) →
      tokenize cfg tokenizer inputs add prompt_name = (.ok (t, enc), true)) := by
  constructor
  · intro htok
    simp only [encode, hne, Bool.false_eq_true, if_false, encode_input, htok]
    rw [if_pos hlen]
  · intro htok
    simp only [tokenize, hne, Bool.false_eq_true, if_false, htok]

/-- C3 (witness): `max_input_length = 8`, a tokenizer producing a 12-token
encoding: `encode` reports the limit 8 and the actual count 12, while
`tokenize` returns the 12-token encoding unchanged. -/
theorem C3_token_limit_post_check_witness :
    encode ⟨8, 0, none, none⟩ (constTokenizer (mkEncoding 12) [])
        (.Single "hello".data) false .Right none
      = (.error (.Validation (.tokenLimitExceeded 8 12)), true) ∧
    tokenize ⟨8, 0, none, none⟩ (constTokenizer (mkEncoding 12) [])
        (.Single "hello".data) true none
      = (.ok (some "hello".data, mkEncoding 12), true) := by
  have h := C3_token_limit_post_check ⟨8, 0, none, none⟩
    (constTokenizer (mkEncoding 12) []) (.Single "hello".data) false .Right
    true none (some "hello".data) (mkEncoding 12) (by decide) (by decide)
  exact ⟨h.1 rfl, h.2 rfl⟩

end Tokenization

namespace Tokenization

theorem u32Range_no_overflow (a len : Nat) (h : a + len < 2 ^ 32) :
    u32Range a (len + a) = List.range' a len := by
  unfold u32Range
  rw [Nat.mod_eq_of_lt (by omega), Nat.mod_eq_of_lt (by omega)]
  congr 1
  omega

/-- C4 (counterexample): with `position_offset = 2 ^ 32 - 1` (a valid
`usize` on a 64-bit machine) and a tokenizer producing a 1-token encoding
the encode succeeds, but the `usize as u32` casts collapse the position-id
range: `position_ids` comes back empty while `input_ids` has one element,
so the three sequences are not of equal length and `position_ids` is not
`[position_offset]` as the claim requires of every successful encode. -/
theorem C4_counterexample :
    (encode ⟨8, 2 ^ 32 - 1, none, none⟩ (constTokenizer (mkEncoding 1) [])
        (.Single "a".data) false .Right none).1
      = .ok { input_ids := [0], token_type_ids := [0], position_ids := [] } ∧
    (encode ⟨8, 2 ^ 32 - 1, none, none⟩ (constTokenizer (mkEncoding 1) [])
        (.Single "a".data) false .Right none).1
      ≠ .ok { input_ids := [0], token_type_ids := [0],
              position_ids := [2 ^ 32 - 1] } := by
  have h1 : (encode ⟨8, 2 ^ 32 - 1, none, none⟩ (constTokenizer (mkEncoding 1) [])
      (.Single "a".data) false .Right none).1
      = .ok { input_ids := [0], token_type_ids := [0], position_ids := [] } := by
    rfl
  refine ⟨h1, ?_⟩
  rw [h1]
  intro h
  simp at h

/-- C4 (amended): provided the `usize as u32` casts do not overflow
(`position_offset + seq_len < 2 ^ 32`) and the tokenizer's encoding is
well-formed (as many type ids as ids), every successful encode returns a
`ValidEncoding` with `position_ids = [position_offset, …,
position_offset + seq_len - 1]`, all three sequences of length `seq_len`,
and `seq_len` at most the configured `max_input_length`. -/
theorem C4_valid_encoding (cfg : Config) (tokenizer : Tokenizer)
    (inputs : EncodingInput) (truncate : Bool) (dir : TruncationDirection)
    (prompt_name : Option RStr) (t : Option RStr) (enc : RawEncoding)
    (hne : inputs.is_empty = false)
    (htok : tokenize_input inputs true cfg.max_input_length
        (encodeTruncParams truncate dir cfg.max_input_length)
        (defaultPromptClone prompt_name cfg.default_prompt) prompt_name
        cfg.prompts tokenizer = .ok (t, enc))
    (hwf : enc.type_ids.length = enc.ids.length)
    (hlen : enc.len ≤ cfg.max_input_length)
    (hof : cfg.position_offset + enc.len < 2 ^ 32) :
    encode cfg tokenizer inputs truncate dir prompt_name
      = (.ok { input_ids := enc.ids, token_type_ids := enc.type_ids,
               position_ids := List.range' cfg.position_offset enc.len }, true) ∧
    enc.ids.length = enc.len ∧
    enc.type_ids.length = enc.len ∧
    (List.range' cfg.position_offset enc.len).length = enc.len ∧
    enc.len ≤ cfg.max_input_length ∧
    (∀ i, i < enc.len →
      (List.range' cfg.position_offset enc.len).getD i 0
        = cfg.position_offset + i) := by
  refine ⟨?_, rfl, hwf, List.length_range' .., hlen, ?_⟩
  · simp only [encode, hne, Bool.false_eq_true, if_false, encode_input, htok]
    rw [if_neg (by omega), u32Range_no_overflow _ _ hof]
  · intro i hi
    rw [List.getD_eq_getElem _ _ (by simpa using hi)]
    simp

/-- C4 (witness): `position_offset = 2`, a 3-token encoding: the returned
`position_ids` are `[2, 3, 4]` and all three sequences have length 3. -/
theorem C4_valid_encoding_witness :
    encode ⟨8, 2, none, none⟩ (constTokenizer (mkEncoding 3) [])
        (.Single "ab".data) false .Right none
      = (.ok { input_ids := [0, 1, 2], token_type_ids := [0, 0, 0],
               position_ids := [2, 3, 4] }, true) := by
  have h := C4_valid_encoding ⟨8, 2, none, none⟩ (constTokenizer (mkEncoding 3) [])
    (.Single "ab".data) false .Right none (some "ab".data) (mkEncoding 3)
    (by decide) rfl (by decide) (by decide) (by decide)
  exact h.1

end Tokenization

namespace Tokenization

/-- C9: on the tokenize path with ids-form input the `add_special_tokens`
argument is ignored: the result is identical for any two values of the
flag. When a prompt resolves, the ids are decoded skipping special tokens
and the prompt-prefixed text is re-encoded with special tokens always
added; when no prompt resolves, the ids are decoded keeping special tokens
and re-encoded with special tokens never added. -/
theorem C9_ids_add_special_tokens_ignored (cfg : Config) (tokenizer : Tokenizer)
    (v : List Nat) (prompt_name : Option RStr) :
    (∀ a b, tokenize cfg tokenizer (.Ids v) a prompt_name
        = tokenize cfg tokenizer (.Ids v) b prompt_name) ∧
    (∀ a pp text e,
      prepare_pre_prompt (defaultPromptClone prompt_name cfg.default_prompt)
        prompt_name cfg.prompts = .ok (some pp) →
      v.length ≤ cfg.max_input_length * MAX_CHAR_MULTIPLIER →
      v ≠ [] →
      tokenizer.decode v true = .ok text →
      tokenizer.withTruncation none = .ok () →
      tokenizer.encodeSingle none (pp ++ text) true = .ok e →
      tokenize cfg tokenizer (.Ids v) a prompt_name
        = (.ok (some (pp ++ text), e), true)) ∧
    (∀ a text e,
      prepare_pre_prompt (defaultPromptClone prompt_name cfg.default_prompt)
        prompt_name cfg.prompts = .ok none →
      v.length ≤ cfg.max_input_length * MAX_CHAR_MULTIPLIER →
      v ≠ [] →
      tokenizer.decode v false = .ok text →
      tokenizer.withTruncation none = .ok () →
      tokenizer.encodeSingle none text false = .ok e →
      tokenize cfg tokenizer (.Ids v) a prompt_name
        = (.ok (some text, e), true)) := by
  refine ⟨?_, ?_, ?_⟩
  · intro a b
    simp only [tokenize]
    split
    · rfl
    · cases hp : prepare_pre_prompt (defaultPromptClone prompt_name
          cfg.default_prompt) prompt_name cfg.prompts with
      | error e => simp [tokenize_input, hp]
      | ok pre =>
        simp only [tokenize_input, hp]
        split
        · split
          · rfl
          · rfl
        · rfl
  · intro a pp text e hp hcount hv hdec hwt henc
    have hne : (EncodingInput.Ids v).is_empty = false := by
      simpa [EncodingInput.is_empty, List.isEmpty_iff] using hv
    have hc : ¬ ((EncodingInput.Ids v).count_chars
        > cfg.max_input_length * MAX_CHAR_MULTIPLIER) := by
      simp only [EncodingInput.count_chars]
      omega
    simp only [tokenize, hne, Bool.false_eq_true, if_false, tokenize_input,
      hp, if_neg hc, tokenize_dispatch, liftTok, hdec, hwt, henc,
      Except.mapError]
  · intro a text e hp hcount hv hdec hwt henc
    have hne : (EncodingInput.Ids v).is_empty = false := by
      simpa [EncodingInput.is_empty, List.isEmpty_iff] using hv
    have hc : ¬ ((EncodingInput.Ids v).count_chars
        > cfg.max_input_length * MAX_CHAR_MULTIPLIER) := by
      simp only [EncodingInput.count_chars]
      omega
    simp only [tokenize, hne, Bool.false_eq_true, if_false, tokenize_input,
      hp, if_neg hc, tokenize_dispatch, liftTok, hdec, hwt, henc,
      Except.mapError]

/-- C9 (witness): ids input `[5, 6]` with the constant tokenizer decoding
to the text `hi`; with the prompt table the result is the prompt-prefixed
re-encoding, without it the bare re-encoding; and the flag values `true`
and `false` give identical results. -/
theorem C9_ids_add_special_tokens_ignored_witness :
    tokenize ⟨8, 0, none, some [("query".data, "p: ".data)]⟩
        (constTokenizer (mkEncoding 2) "hi".data) (.Ids [5, 6]) false
        (some "query".data)
      = (.ok (some "p: hi".data, mkEncoding 2), true) ∧
    tokenize ⟨8, 0, none, none⟩ (constTokenizer (mkEncoding 2) "hi".data)
        (.Ids [5, 6]) false none
      = (.ok (some "hi".data, mkEncoding 2), true) ∧
    tokenize ⟨8, 0, none, none⟩ (constTokenizer (mkEncoding 2) "hi".data)
        (.Ids [5, 6]) true none
      = tokenize ⟨8, 0, none, none⟩ (constTokenizer (mkEncoding 2) "hi".data)
        (.Ids [5, 6]) false none := by
  have h1 := (C9_ids_add_special_tokens_ignored
    ⟨8, 0, none, some [("query".data, "p: ".data)]⟩
    (constTokenizer (mkEncoding 2) "hi".data) [5, 6] (some "query".data)).2.1
    false "p: ".data "hi".data (mkEncoding 2) rfl (by decide) (by decide)
    rfl rfl rfl
  have h2 := (C9_ids_add_special_tokens_ignored ⟨8, 0, none, none⟩
    (constTokenizer (mkEncoding 2) "hi".data) [5, 6] none).2.2
    false "hi".data (mkEncoding 2) rfl (by decide) (by decide) rfl rfl rfl
  have h3 := (C9_ids_add_special_tokens_ignored ⟨8, 0, none, none⟩
    (constTokenizer (mkEncoding 2) "hi".data) [5, 6] none).1 true false
  exact ⟨h1, h2, h3⟩

end Tokenization

namespace Tokenization

/-- The Unicode replacement character U+FFFD. -/
def replacementChar : Char := Char.ofNat 0xFFFD

/-- A UTF-8 continuation byte. -/
abbrev isContByte (b : Nat) : Prop := 0x80 ≤ b ∧ b ≤ 0xBF

/-- Constraint on the second byte of a three-byte UTF-8 sequence (rules out
overlong encodings and surrogate values). -/
abbrev secondOf3 (b1 b2 : Nat) : Prop :=
  if b1 = 0xE0 then 0xA0 ≤ b2 ∧ b2 ≤ 0xBF
  else if b1 = 0xED then 0x80 ≤ b2 ∧ b2 ≤ 0x9F
  else isContByte b2

/-- Constraint on the second byte of a four-byte UTF-8 sequence (rules out
overlong encodings and values beyond U+10FFFF). -/
abbrev secondOf4 (b1 b2 : Nat) : Prop :=
  if b1 = 0xF0 then 0x90 ≤ b2 ∧ b2 ≤ 0xBF
  else if b1 = 0xF4 then 0x80 ≤ b2 ∧ b2 ≤ 0x8F
  else isContByte b2

/-- Modelled from the spec: the external lossy UTF-8 decoder
(`String::from_utf8_lossy`), specified as "decode leniently; invalid byte
sequences are replaced, never causing a failure". Well-formed sequences
decode to their scalar value; a byte that does not start a well-formed
sequence is replaced by U+FFFD (the standard decoder replaces maximal
invalid subparts; this model replaces at least one byte and re-examines the
remainder, which agrees with it on all valid input). The recursion is
structural on a fuel parameter; one unit of fuel is spent per emitted
character, so any fuel of at least the byte length decodes completely. -/
def lossyLoop : Nat → List Nat → List Char
  | _, [] => []
  | 0, _ :: _ => []
  | fuel + 1, b1 :: t1 =>
    if b1 < 0x80 then Char.ofNat b1 :: lossyLoop fuel t1
    else if 0xC2 ≤ b1 ∧ b1 ≤ 0xDF then
      match t1 with
      | b2 :: t2 =>
        if isContByte b2 then
          Char.ofNat ((b1 - 0xC0) * 0x40 + (b2 - 0x80)) :: lossyLoop fuel t2
        else
          replacementChar :: lossyLoop fuel t1
      | [] => [replacementChar]
    else if 0xE0 ≤ b1 ∧ b1 ≤ 0xEF then
      match t1 with
      | b2 :: b3 :: t3 =>
        if secondOf3 b1 b2 ∧ isContByte b3 then
          Char.ofNat ((b1 - 0xE0) * 0x1000 + (b2 - 0x80) * 0x40 + (b3 - 0x80))
            :: lossyLoop fuel t3
        else
          replacementChar :: lossyLoop fuel t1
      | _ => replacementChar :: lossyLoop fuel t1
    else if 0xF0 ≤ b1 ∧ b1 ≤ 0xF4 then
      match t1 with
      | b2 :: b3 :: b4 :: t4 =>
        if secondOf4 b1 b2 ∧ isContByte b3 ∧ isContByte b4 then
          Char.ofNat ((b1 - 0xF0) * 0x40000 + (b2 - 0x80) * 0x1000
              + (b3 - 0x80) * 0x40 + (b4 - 0x80))
            :: lossyLoop fuel t4
        else
          replacementChar :: lossyLoop fuel t1
      | _ => replacementChar :: lossyLoop fuel t1
    else
      replacementChar :: lossyLoop fuel t1

/-- The lossy UTF-8 decoding of a byte list: run the decoding loop with
fuel equal to the byte length (always sufficient, one emitted character
consumes at least one byte). -/
def from_utf8_lossy (l : List Nat) : List Char :=
  lossyLoop l.length l

/-- The UTF-8 encoding of one unicode scalar value, used to state the
round-trip property of the lossy decoder. -/
def utf8EncodeChar (c : Char) : List Nat :=
  if c.toNat < 0x80 then [c.toNat]
  else if c.toNat < 0x800 then
    [0xC0 + c.toNat / 0x40, 0x80 + c.toNat % 0x40]
  else if c.toNat < 0x10000 then
    [0xE0 + c.toNat / 0x1000, 0x80 + c.toNat / 0x40 % 0x40,
     0x80 + c.toNat % 0x40]
  else
    [0xF0 + c.toNat / 0x40000, 0x80 + c.toNat / 0x1000 % 0x40,
     0x80 + c.toNat / 0x40 % 0x40, 0x80 + c.toNat % 0x40]

/-- The UTF-8 encoding of a string. -/
def utf8Encode : RStr → List Nat
  | [] => []
  | c :: t => utf8EncodeChar c ++ utf8Encode t

/-- The struct `SimpleToken`. -/
structure SimpleToken where
  id : Nat
  text : RStr
  special : Bool
  start : Option Nat
  stop : Option Nat
deriving DecidableEq, Repr

/-- Rust `usize` subtraction as compiled in a release build: on underflow
it wraps modulo `2 ^ 64` (a debug build panics there instead; the panic-free
release semantics is what is modelled). Faithful for operands below
`2 ^ 64`, the `usize` value range. -/
def usizeSub (a b : Nat) : Nat :=
  (a + 2 ^ 64 - b) % 2 ^ 64

/-- Function `into_tokens`: zip ids, offsets, special-token mask and token
texts (iterator `zip` truncates to the shortest sequence) and emit one
`SimpleToken` per position: a special token keeps its token text and has no
offsets; any other token slices the original input bytes (`skip start` then
`take (stop - start)`, the subtraction being wrapping `usize` subtraction)
and decodes them leniently. For well-formed offsets `start ≤ stop` this is
the byte range `[start, stop)`; for `stop < start` the wrapped count
exceeds any input length, so the slice is the whole suffix from `start`. -/
def into_tokens (encoding : RawEncoding) (input : List Nat) : List SimpleToken :=
  ((((encoding.ids.zip encoding.offsets).zip encoding.special_tokens_mask).zip
      encoding.tokens).map
    fun x =>
      let id := x.1.1.1
      let start := x.1.1.2.1
      let stop := x.1.1.2.2
      let special := x.1.2 == 1
      let token := x.2
      if special then
        { id := id, text := token, special := special,
          start := none, stop := none }
      else
        { id := id,
          text := from_utf8_lossy ((input.drop start).take (usizeSub stop start)),
          special := special, start := some start, stop := some stop })

end Tokenization

namespace Tokenization

theorem utf8Encode_cons (c : Char) (t : RStr) :
    utf8Encode (c :: t) = utf8EncodeChar c ++ utf8Encode t := rfl

theorem lossyLoop_roundtrip (s : RStr) (fuel : Nat)
    (hf : (utf8Encode s).length ≤ fuel) :
    lossyLoop fuel (utf8Encode s) = s := by
  induction s generalizing fuel with
  | nil => cases fuel <;> rfl
  | cons c t ih =>
    have hv : Nat.isValidChar c.toNat := c.valid
    have hofn : Char.ofNat c.toNat = c := Char.ofNat_toNat c
    have hvn : c.toNat < 0xd800 ∨ (0xdfff < c.toNat ∧ c.toNat < 0x110000) := hv
    cases fuel with
    | zero =>
      exfalso
      rw [utf8Encode_cons, List.length_append] at hf
      have : 0 < (utf8EncodeChar c).length := by
        simp only [utf8EncodeChar]
        split_ifs <;> simp
      omega
    | succ f =>
      have hlef : (utf8Encode t).length ≤ f := by
        rw [utf8Encode_cons, List.length_append] at hf
        have : 0 < (utf8EncodeChar c).length := by
          simp only [utf8EncodeChar]
          split_ifs <;> simp
        omega
      rw [utf8Encode_cons]
      by_cases h1 : c.toNat < 0x80
      · have he : utf8EncodeChar c = [c.toNat] := by
          simp [utf8EncodeChar, h1]
        rw [he, List.cons_append, List.nil_append]
        simp only [lossyLoop]
        rw [if_pos h1, hofn, ih f hlef]
      · by_cases h2 : c.toNat < 0x800
        · have he : utf8EncodeChar c
              = [0xC0 + c.toNat / 0x40, 0x80 + c.toNat % 0x40] := by
            simp [utf8EncodeChar, h1, h2]
          rw [he]
          show lossyLoop (f + 1)
            ((0xC0 + c.toNat / 0x40) :: ((0x80 + c.toNat % 0x40) :: utf8Encode t))
            = c :: t
          simp only [lossyLoop]
          rw [if_neg (by omega), if_pos (show 0xC2 ≤ 0xC0 + c.toNat / 0x40 ∧ 0xC0 + c.toNat / 0x40 ≤ 0xDF by omega)]
          rw [if_pos (show isContByte (0x80 + c.toNat % 0x40) by constructor <;> omega)]
          rw [show (0xC0 + c.toNat / 0x40 - 0xC0) * 0x40 + (0x80 + c.toNat % 0x40 - 0x80) = c.toNat by omega]
          rw [hofn, ih f hlef]
        · by_cases h3 : c.toNat < 0x10000
          · have he : utf8EncodeChar c
                = [0xE0 + c.toNat / 0x1000, 0x80 + c.toNat / 0x40 % 0x40,
                   0x80 + c.toNat % 0x40] := by
              simp [utf8EncodeChar, h1, h2, h3]
            rw [he]
            show lossyLoop (f + 1)
              ((0xE0 + c.toNat / 0x1000) :: ((0x80 + c.toNat / 0x40 % 0x40)
                :: ((0x80 + c.toNat % 0x40) :: utf8Encode t)))
              = c :: t
            simp only [lossyLoop]
            rw [if_neg (by omega), if_neg (by omega),
              if_pos (show 0xE0 ≤ 0xE0 + c.toNat / 0x1000 ∧ 0xE0 + c.toNat / 0x1000 ≤ 0xEF by omega)]
            have hs3 : secondOf3 (0xE0 + c.toNat / 0x1000) (0x80 + c.toNat / 0x40 % 0x40) := by
              simp only [secondOf3, isContByte]
              rcases hvn with hlo | hhi
              · split_ifs <;> constructor <;> omega
              · split_ifs <;> constructor <;> omega
            rw [if_pos ⟨hs3, show isContByte (0x80 + c.toNat % 0x40) by constructor <;> omega⟩]
            rw [show (0xE0 + c.toNat / 0x1000 - 0xE0) * 0x1000
                + (0x80 + c.toNat / 0x40 % 0x40 - 0x80) * 0x40
                + (0x80 + c.toNat % 0x40 - 0x80) = c.toNat by omega]
            rw [hofn, ih f hlef]
          · have h4 : c.toNat < 0x110000 := by rcases hvn with h | h <;> omega
            have he : utf8EncodeChar c
                = [0xF0 + c.toNat / 0x40000, 0x80 + c.toNat / 0x1000 % 0x40,
                   0x80 + c.toNat / 0x40 % 0x40, 0x80 + c.toNat % 0x40] := by
              simp [utf8EncodeChar, h1, h2, h3]
            rw [he]
            show lossyLoop (f + 1)
              ((0xF0 + c.toNat / 0x40000) :: ((0x80 + c.toNat / 0x1000 % 0x40)
                :: ((0x80 + c.toNat / 0x40 % 0x40)
                  :: ((0x80 + c.toNat % 0x40) :: utf8Encode t))))
              = c :: t
            simp only [lossyLoop]
            rw [if_neg (by omega), if_neg (by omega), if_neg (by omega),
              if_pos (show 0xF0 ≤ 0xF0 + c.toNat / 0x40000 ∧ 0xF0 + c.toNat / 0x40000 ≤ 0xF4 by omega)]
            have hs4 : secondOf4 (0xF0 + c.toNat / 0x40000) (0x80 + c.toNat / 0x1000 % 0x40) := by
              simp only [secondOf4, isContByte]
              split_ifs <;> constructor <;> omega
            rw [if_pos ⟨hs4, ⟨show isContByte (0x80 + c.toNat / 0x40 % 0x40) by constructor <;> omega,
              show isContByte (0x80 + c.toNat % 0x40) by constructor <;> omega⟩⟩]
            rw [show (0xF0 + c.toNat / 0x40000 - 0xF0) * 0x40000
                + (0x80 + c.toNat / 0x1000 % 0x40 - 0x80) * 0x1000
                + (0x80 + c.toNat / 0x40 % 0x40 - 0x80) * 0x40
                + (0x80 + c.toNat % 0x40 - 0x80) = c.toNat by omega]
            rw [hofn, ih f hlef]

theorem from_utf8_lossy_roundtrip (s : RStr) :
    from_utf8_lossy (utf8Encode s) = s :=
  lossyLoop_roundtrip s (utf8Encode s).length (Nat.le_refl _)

end Tokenization

namespace Tokenization

theorem usizeSub_of_le (a b : Nat) (h : b ≤ a) (ha : a < 2 ^ 64) :
    usizeSub a b = a - b := by
  unfold usizeSub
  omega

theorem usizeSub_of_lt (a b : Nat) (h : a < b) (hb : b < 2 ^ 64) :
    usizeSub a b = 2 ^ 64 - (b - a) := by
  unfold usizeSub
  omega

/-- C8 (counterexample): at reversed offsets `(start, stop) = (2, 1)` the
claim requires the token text to be the lossy decoding of the bytes in the
empty range `[2, 1)`, i.e. the empty string. The source's `stop - start`
underflows there: a debug build panics (a failure case), and a release
build wraps, so `take` consumes the entire suffix from byte 2 — over the
UTF-8 bytes of `abcd` the emitted text is `cd`, not empty. -/
theorem C8_counterexample :
    into_tokens
        { ids := [7], type_ids := [0], tokens := ["x".data],
          offsets := [(2, 1)], special_tokens_mask := [0] }
        (utf8Encode "abcd".data)
      = [{ id := 7, text := "cd".data, special := false,
           start := some 2, stop := some 1 }] ∧
    "cd".data ≠ ([] : RStr) := by
  have h0 : into_tokens
      { ids := [7], type_ids := [0], tokens := ["x".data],
        offsets := [(2, 1)], special_tokens_mask := [0] }
      (utf8Encode "abcd".data)
      = [{ id := 7,
           text := from_utf8_lossy
             (((utf8Encode "abcd".data).drop 2).take (usizeSub 1 2)),
           special := false, start := some 2, stop := some 1 }] := rfl
  have hslice : ((utf8Encode "abcd".data).drop 2).take (usizeSub 1 2)
      = [99, 100] := by
    rw [usizeSub_of_lt 1 2 (by omega) (by norm_num),
      show (utf8Encode "abcd".data).drop 2 = [99, 100] from rfl]
    exact List.take_of_length_le (by norm_num)
  rw [h0, hslice]
  exact ⟨by decide, by decide⟩

/-- C8 (amended): at every position of the zipped encoding, a special token
(mask = 1) is emitted with its token text and no offsets. A non-special
token with well-formed offsets `start ≤ stop` is emitted as the lossy UTF-8
decoding of the input bytes in `[start, stop)` together with `some start`
and `some stop`; with reversed offsets `stop < start` the wrapping `usize`
subtraction of a release build makes the emitted text the lossy decoding of
the entire input suffix from `start` (a debug build panics there instead).
Offsets and the input length are `usize` values, below `2 ^ 64`. The lossy
decoder never fails and decodes every valid UTF-8 byte sequence back to its
text (round-trip), and the output has one token per zipped position. -/
theorem C8_into_tokens (enc : RawEncoding) (input : List Nat) (i : Nat)
    (id st sp mask : Nat) (token : RStr)
    (h1 : enc.ids[i]? = some id) (h2 : enc.offsets[i]? = some (st, sp))
    (h3 : enc.special_tokens_mask[i]? = some mask)
    (h4 : enc.tokens[i]? = some token)
    (hst64 : st < 2 ^ 64) (hsp64 : sp < 2 ^ 64)
    (hin : input.length ≤ 2 ^ 64) :
    (st ≤ sp →
      (into_tokens enc input)[i]?
        = some (if mask == 1 then
            { id := id, text := token, special := true,
              start := none, stop := none }
          else
            { id := id,
              text := from_utf8_lossy ((input.drop st).take (sp - st)),
              special := false, start := some st, stop := some sp })) ∧
    (sp < st →
      (into_tokens enc input)[i]?
        = some (if mask == 1 then
            { id := id, text := token, special := true,
              start := none, stop := none }
          else
            { id := id, text := from_utf8_lossy (input.drop st),
              special := false, start := some st, stop := some sp })) ∧
    (∀ s : RStr, from_utf8_lossy (utf8Encode s) = s) ∧
    (into_tokens enc input).length
      = min (min (min enc.ids.length enc.offsets.length)
          enc.special_tokens_mask.length) enc.tokens.length := by
  have hz : ((((enc.ids.zip enc.offsets).zip enc.special_tokens_mask).zip
      enc.tokens))[i]? = some (((id, (st, sp)), mask), token) := by
    rw [List.getElem?_zip_eq_some]
    refine ⟨?_, h4⟩
    rw [List.getElem?_zip_eq_some]
    refine ⟨?_, h3⟩
    rw [List.getElem?_zip_eq_some]
    exact ⟨h1, h2⟩
  refine ⟨?_, ?_, from_utf8_lossy_roundtrip, by simp [into_tokens]⟩
  · intro hle
    simp only [into_tokens, List.getElem?_map, hz, Option.map_some']
    rw [usizeSub_of_le sp st hle hsp64]
    by_cases hm : mask == 1
    · rw [if_pos hm, if_pos hm, hm]
    · rw [if_neg hm, if_neg hm, Bool.not_eq_true] at *
      rw [hm]
  · intro hlt
    simp only [into_tokens, List.getElem?_map, hz, Option.map_some']
    rw [usizeSub_of_lt sp st hlt hst64,
      List.take_of_length_le (show (input.drop st).length ≤ 2 ^ 64 - (st - sp) by
        rw [List.length_drop]
        omega)]
    by_cases hm : mask == 1
    · rw [if_pos hm, if_pos hm, hm]
    · rw [if_neg hm, if_neg hm, Bool.not_eq_true] at *
      rw [hm]

/-- C8 (witness): over the UTF-8 bytes of the text `hé`, position 0 is a
special token (text kept, no offsets) and position 1 slices bytes `[1, 3)`
and decodes them leniently back to the character é; over the bytes of
`abcde`, the reversed offsets `(3, 1)` yield the whole suffix `de`; and the
decoder round-trips the whole input. -/
theorem C8_into_tokens_witness :
    (into_tokens
        { ids := [0, 7], type_ids := [0, 0], tokens := ["<s>".data, "x".data],
          offsets := [(0, 0), (1, 3)], special_tokens_mask := [1, 0] }
        (utf8Encode "hé".data))[1]?
      = some { id := 7, text := "é".data, special := false,
               start := some 1, stop := some 3 } ∧
    (into_tokens
        { ids := [0, 7], type_ids := [0, 0], tokens := ["<s>".data, "x".data],
          offsets := [(0, 0), (1, 3)], special_tokens_mask := [1, 0] }
        (utf8Encode "hé".data))[0]?
      = some { id := 0, text := "<s>".data, special := true,
               start := none, stop := none } ∧
    (into_tokens
        { ids := [9], type_ids := [0], tokens := ["y".data],
          offsets := [(3, 1)], special_tokens_mask := [0] }
        (utf8Encode "abcde".data))[0]?
      = some { id := 9, text := "de".data, special := false,
               start := some 3, stop := some 1 } ∧
    from_utf8_lossy (utf8Encode "hé".data) = "hé".data := by
  have h1 := C8_into_tokens
    { ids := [0, 7], type_ids := [0, 0], tokens := ["<s>".data, "x".data],
      offsets := [(0, 0), (1, 3)], special_tokens_mask := [1, 0] }
    (utf8Encode "hé".data) 1 7 1 3 0 "x".data rfl rfl rfl rfl
    (by decide) (by decide) (by decide)
  have h0 := C8_into_tokens
    { ids := [0, 7], type_ids := [0, 0], tokens := ["<s>".data, "x".data],
      offsets := [(0, 0), (1, 3)], special_tokens_mask := [1, 0] }
    (utf8Encode "hé".data) 0 0 0 0 1 "<s>".data rfl rfl rfl rfl
    (by decide) (by decide) (by decide)
  have h2 := C8_into_tokens
    { ids := [9], type_ids := [0], tokens := ["y".data],
      offsets := [(3, 1)], special_tokens_mask := [0] }
    (utf8Encode "abcde".data) 0 9 3 1 0 "y".data rfl rfl rfl rfl
    (by decide) (by decide) (by decide)
  refine ⟨?_, ?_, ?_, h1.2.2.1 "hé".data⟩
  · rw [h1.1 (by omega)]
    decide
  · rw [h0.1 (by omega)]
    decide
  · rw [h2.2.1 (by omega)]
    decide

end Tokenization
